import Mathlib

/-!
Verification of the patch-application engine of the `claude-code-patches`
repository (files `patch-npm-deprecation-warning.js`, `patch-thinking.js`,
`patch-subagent-models.js`).

Text is modelled as `List Char` (JS strings decoded latin1: one char per
byte) and binary data as `List Nat` (byte values).  JS `-1` sentinels become
`Option`, JS `throw` becomes `Except String`.
-/

namespace ClaudePatches

/-! ## Generic list/string primitives (JS `String.prototype` operations) -/

/-- Boolean prefix test on lists (used to model JS `indexOf`/`includes`). -/
def isPrefixList [DecidableEq α] : List α → List α → Bool
  | [], _ => true
  | _ :: _, [] => false
  | a :: n, b :: h => if a = b then isPrefixList n h else false

/-- JS `haystack.indexOf(needle)`: index of the first occurrence, `none` for `-1`. -/
def indexOfList [DecidableEq α] (n : List α) : List α → Option Nat
  | [] => if n.isEmpty then some 0 else none
  | b :: h => if isPrefixList n (b :: h) then some 0 else (indexOfList n h).map (· + 1)

/-- JS `haystack.lastIndexOf(needle)`: index of the last occurrence. -/
def lastIndexOfList [DecidableEq α] (n : List α) : List α → Option Nat
  | [] => if n.isEmpty then some 0 else none
  | b :: h =>
    match lastIndexOfList n h with
    | some i => some (i + 1)
    | none => if isPrefixList n (b :: h) then some 0 else none

/-- JS `content.includes(pat)` (used by the exact-literal rule detection in
`patch-thinking.js`). -/
def includes [DecidableEq α] (content pat : List α) : Bool :=
  (indexOfList pat content).isSome

/-- Number of positions at which `n` occurs in `h` (for stating
"occurs exactly once"). -/
def occCount [DecidableEq α] (n h : List α) : Nat :=
  ((List.range (h.length + 1)).filter (fun i => isPrefixList n (h.drop i))).length

/-- Conversion helpers for concrete inputs. -/
def strChars (s : String) : List Char := s.data

/-- Bytes of an ASCII/latin1 string. -/
def strBytes (s : String) : List Nat := s.data.map Char.toNat

/-! ## `findMatchingParen` (`patch-npm-deprecation-warning.js` lines 318-369,
repeated verbatim at lines 430-481; also the Delimiter-Balanced Scanner of
spec section 4.2).

JS compares the current 1-character string `ch` against string literals with
`===`; `chEq` renders that comparison (a `Char` viewed as a 1-element string
versus the literal's character list). The JS source's escape test literal is
`'\\\\'`, i.e. a *two*-character string (two backslashes). -/

/-- JS `ch === lit` where `ch` is a single character and `lit` a string literal. -/
def chEq (ch : Char) (lit : List Char) : Bool := [ch] = lit

/-- The character `\` (code 92). -/
def bsChar : Char := Char.ofNat 92

/-- The JS source literal `'\\\\'`: a string of two backslashes. -/
def jsEscapeTestLit : List Char := [bsChar, bsChar]

/-- The character `'` (code 39). -/
def sqChar : Char := Char.ofNat 39

/-- The character `"` (code 34). -/
def dqChar : Char := Char.ofNat 34

/-- The template-literal character (backtick, code 96). -/
def btChar : Char := Char.ofNat 96

/-- Scanner state of `findMatchingParen`. -/
structure ScanSt where
  depth : Int
  inSingle : Bool
  inDouble : Bool
  inTemplate : Bool
  escaped : Bool
deriving DecidableEq

/-- One pass of the `for` loop of `findMatchingParen`, walking the suffix of
the input starting at index `i`. -/
def fmpGo : ScanSt → Nat → List Char → Option Nat
  | _, _, [] => none
  | st, i, ch :: rest =>
    if st.escaped then
      fmpGo { st with escaped := false } (i + 1) rest
    else if st.inSingle then
      if chEq ch jsEscapeTestLit then fmpGo { st with escaped := true } (i + 1) rest
      else if chEq ch [sqChar] then fmpGo { st with inSingle := false } (i + 1) rest
      else fmpGo st (i + 1) rest
    else if st.inDouble then
      if chEq ch jsEscapeTestLit then fmpGo { st with escaped := true } (i + 1) rest
      else if chEq ch [dqChar] then fmpGo { st with inDouble := false } (i + 1) rest
      else fmpGo st (i + 1) rest
    else if st.inTemplate then
      if chEq ch jsEscapeTestLit then fmpGo { st with escaped := true } (i + 1) rest
      else if chEq ch [btChar] then fmpGo { st with inTemplate := false } (i + 1) rest
      else fmpGo st (i + 1) rest
    else if chEq ch [sqChar] then fmpGo { st with inSingle := true } (i + 1) rest
    else if chEq ch [dqChar] then fmpGo { st with inDouble := true } (i + 1) rest
    else if chEq ch [btChar] then fmpGo { st with inTemplate := true } (i + 1) rest
    else if ch = '(' then fmpGo { st with depth := st.depth + 1 } (i + 1) rest
    else if ch = ')' then
      if st.depth - 1 = 0 then some i
      else fmpGo { st with depth := st.depth - 1 } (i + 1) rest
    else fmpGo st (i + 1) rest

/-- `findMatchingParen(str, openParenIndex)` from the source:
returns the index of the parenthesis that brings the depth back to zero,
`none` for the JS `-1`. -/
def findMatchingParen (s : List Char) (openParenIndex : Nat) : Option Nat :=
  fmpGo ⟨0, false, false, false, false⟩ openParenIndex (s.drop openParenIndex)

/-- Delimiter-Balanced Scanner as worded by spec section 4.2: identical to
`findMatchingParen` except that the backslash-escape test compares the current
character against a *single* backslash, so escape tracking actually fires. -/
def fmpGoSpec : ScanSt → Nat → List Char → Option Nat
  | _, _, [] => none
  | st, i, ch :: rest =>
    if st.escaped then
      fmpGoSpec { st with escaped := false } (i + 1) rest
    else if st.inSingle then
      if ch = bsChar then fmpGoSpec { st with escaped := true } (i + 1) rest
      else if ch = sqChar then fmpGoSpec { st with inSingle := false } (i + 1) rest
      else fmpGoSpec st (i + 1) rest
    else if st.inDouble then
      if ch = bsChar then fmpGoSpec { st with escaped := true } (i + 1) rest
      else if ch = dqChar then fmpGoSpec { st with inDouble := false } (i + 1) rest
      else fmpGoSpec st (i + 1) rest
    else if st.inTemplate then
      if ch = bsChar then fmpGoSpec { st with escaped := true } (i + 1) rest
      else if ch = btChar then fmpGoSpec { st with inTemplate := false } (i + 1) rest
      else fmpGoSpec st (i + 1) rest
    else if ch = sqChar then fmpGoSpec { st with inSingle := true } (i + 1) rest
    else if ch = dqChar then fmpGoSpec { st with inDouble := true } (i + 1) rest
    else if ch = btChar then fmpGoSpec { st with inTemplate := true } (i + 1) rest
    else if ch = '(' then fmpGoSpec { st with depth := st.depth + 1 } (i + 1) rest
    else if ch = ')' then
      if st.depth - 1 = 0 then some i
      else fmpGoSpec { st with depth := st.depth - 1 } (i + 1) rest
    else fmpGoSpec st (i + 1) rest

/-- Spec-side `findMatchingClose` (spec section 4.2), with working escape
tracking. -/
def findMatchingCloseSpec (s : List Char) (openParenIndex : Nat) : Option Nat :=
  fmpGoSpec ⟨0, false, false, false, false⟩ openParenIndex (s.drop openParenIndex)

/-! ## `applyPatchToNativeBinary` (`patch-npm-deprecation-warning.js`
lines 420-539): marker search, backward identifier scan, delimiter scan and
length-preserving splice. -/

/-- JS `/\s/.test(ch)` restricted to latin1 characters (code points up to
255): tab, LF, VT, FF, CR, space, NBSP. -/
def jsIsSpace (c : Char) : Bool :=
  c.toNat = 9 || c.toNat = 10 || c.toNat = 11 || c.toNat = 12 || c.toNat = 13 ||
    c.toNat = 32 || c.toNat = 160

/-- JS `/[A-Za-z0-9_$\.]/.test(ch)` (`isIdentChar` in the source). -/
def isIdentChar (c : Char) : Bool :=
  (65 ≤ c.toNat && c.toNat ≤ 90) || (97 ≤ c.toNat && c.toNat ≤ 122) ||
    (48 ≤ c.toNat && c.toNat ≤ 57) || c = '_' || c = '$' || c = '.'

/-- The backward `while (i >= 0 && p(str[i])) i--` walks of the source.
Positions are encoded as "JS index plus one", so `0` stands for JS `-1`:
`walkBack p s b` starts testing `str[b-1]` and returns final-index-plus-one. -/
def walkBack (p : Char → Bool) (s : List Char) : Nat → Nat
  | 0 => 0
  | k + 1 =>
    if (match s.get? k with | some c => p c | none => false) then walkBack p s k
    else k + 1

/-- `padRightSpaces(str, targetLen)` from the source: `none` when the text is
longer than the target span, otherwise right-pad with ASCII spaces. -/
def padRightSpaces (s : List Char) (targetLen : Nat) : Option (List Char) :=
  if targetLen < s.length then none
  else some (s ++ List.replicate (targetLen - s.length) ' ')

/-- The marker `key:"npm-deprecation-warning"` (the `keyNeedle` constant). -/
def keyNeedle : List Char := strChars "key:\"npm-deprecation-warning\""

/-- The `'({'` token searched backwards from the marker. -/
def openBraceTok : List Char := strChars "(\x7b"

/-- `patchOnce(str)` of `applyPatchToNativeBinary`: locate the marker, walk
back to the nearest `({` inside a 2500-character window, find the matching
closing parenthesis, walk back over whitespace and identifier characters to
the callee start, and splice in `0` padded with spaces over the whole call. -/
def patchOnce (s : List Char) : Bool × List Char :=
  match indexOfList keyNeedle s with
  | none => (false, s)
  | some idxKey =>
    let windowStart := idxKey - 2500
    let searchSpace := (s.take (idxKey + keyNeedle.length)).drop windowStart
    match lastIndexOfList openBraceTok searchSpace with
    | none => (false, s)
    | some relObj =>
      let openParenIndex := windowStart + relObj
      match findMatchingParen s openParenIndex with
      | none => (false, s)
      | some closeParenIndex =>
        let identEnd := walkBack jsIsSpace s openParenIndex
        let identStart := walkBack isIdentChar s identEnd
        if identEnd ≤ identStart then (false, s)
        else
          let removalStart := identStart
          let removalEnd := closeParenIndex + 1
          if removalEnd ≤ removalStart then (false, s)
          else
            match padRightSpaces ['0'] (removalEnd - removalStart) with
            | none => (false, s)
            | some replacement =>
              (true, s.take removalStart ++ replacement ++ s.drop removalEnd)

/-- The `for (let n = 0; n < 5; n++)` retry loop around `patchOnce`. -/
def patchLoop : Nat → Bool → List Char → Bool × List Char
  | 0, did, text => (did, text)
  | n + 1, did, text =>
    let r := patchOnce text
    if r.1 then patchLoop n true r.2 else (did, text)

/-- `buf.toString('latin1')`: one character per byte. -/
def latin1Decode (buf : List Nat) : List Char := buf.map Char.ofNat

/-- `Buffer.from(text, 'latin1')`: low byte of each code unit. -/
def latin1Encode (text : List Char) : List Nat := text.map (fun c => c.toNat % 256)

/-- `applyPatchToNativeBinary(buf)`: decode latin1, run the patch loop, encode
back and refuse (throw) if the byte length changed. -/
def applyPatchToNativeBinary (buf : List Nat) : Except String (Bool × List Nat) :=
  let text := latin1Decode buf
  let r := patchLoop 5 false text
  let out := latin1Encode r.2
  if out.length ≠ buf.length then
    .error "Refusing to patch native/binary: size changed."
  else
    .ok (r.1, out)

/-! ## `replaceOnceExact` (`patch-thinking.js` lines 842-865), native-binary
branch: buffer-level first-occurrence replacement, space-filled to the search
length; throws before looking at the buffer when the replacement is longer
than the search bytes. -/

/-- Native-binary branch of `replaceOnceExact(source, search, replacement)`. -/
def replaceOnceExact (source search replacement : List Nat) : Except String (List Nat) :=
  if search.length < replacement.length then
    .error "Native/binary install patch too large for in-place replacement"
  else
    match indexOfList search source with
    | none => .ok source
    | some idx =>
      .ok (source.take idx ++ replacement ++
        List.replicate (search.length - replacement.length) 32 ++
        source.drop (idx + search.length))

/-- JS `content.replace(search, replacement)` for a plain string search and a
replacement containing no `$`-patterns (none of the repository's replacement
literals do): splice at the first occurrence, identity when absent. -/
def replaceFirst [DecidableEq α] (content search repl : List α) : List α :=
  match indexOfList search content with
  | none => content
  | some idx => content.take idx ++ repl ++ content.drop (idx + search.length)

/-- The write-back guard of `patch-thinking.js` lines 3642-3650 (identical in
`patch-subagent-models.js`): for native/binary targets the patched content is
written only when its length equals the original length; otherwise the
process exits without writing. -/
def nativeWriteGuard (origLen : Nat) (content : List Char) : Option (List Char) :=
  if content.length ≠ origLen then none else some content

/-- The exact-literal native branch of the `patch-subagent-models.js` apply
loop (lines 519-532): pad the replacement to the search length, throwing when
it does not fit, then replace the first occurrence. -/
def applySubagentExactNative (content search repl : List Char) : Except String (List Char) :=
  match padRightSpaces repl search.length with
  | none => .error "Native/binary install patch too large for in-place replacement"
  | some padded => .ok (replaceFirst content search padded)

/-- The apply-then-write sequence for one exact native patch
(`patch-thinking.js` main flow): a throw from `replaceOnceExact` propagates
and aborts before `fs.writeFileSync`, and the pre-write length guard also
leaves the file untouched on mismatch; the on-disk target changes only on
full success. -/
def runExactPatchNative (disk search repl : List Nat) : List Nat :=
  match replaceOnceExact disk search repl with
  | .error _ => disk
  | .ok out => if out.length ≠ disk.length then disk else out

/-- The corresponding apply-then-write sequence for the
`patch-subagent-models.js` exact native path. -/
def runSubagentPatchNative (disk search repl : List Char) : List Char :=
  match applySubagentExactNative disk search repl with
  | .error _ => disk
  | .ok out => if out.length ≠ disk.length then disk else out

/-! ## `replaceRegexPreserveLengthNativeString` (`patch-thinking.js`
lines 889-913): global regex replacement where every match is replaced by its
replacement right-padded with spaces to the match length, throwing when the
replacement is longer than the match.

The regex engine is abstracted by a matcher `matchAt : List Char →
Option (Nat × List Char)` that, given a suffix of the text, reports the match
length at its head together with the raw replacement built from the capture
groups; global `String.replace` semantics then scan left to right,
continuing after each match. -/

/-- Left-to-right global replace with per-match space padding; `fuel` is the
length of the initial text (each step consumes at least one character). -/
def rrplGo (matchAt : List Char → Option (Nat × List Char)) :
    Nat → List Char → Except String (List Char)
  | _, [] => .ok []
  | 0, l => .ok l
  | fuel + 1, c :: rest =>
    match matchAt (c :: rest) with
    | none => (rrplGo matchAt fuel rest).map (c :: ·)
    | some (len, repl) =>
      match padRightSpaces repl len with
      | none => .error "Native/binary install patch too large for in-place regex replacement"
      | some padded =>
        if len = 0 then (rrplGo matchAt fuel rest).map (fun t => padded ++ c :: t)
        else (rrplGo matchAt fuel ((c :: rest).drop len)).map (padded ++ ·)

/-- `replaceRegexPreserveLengthNativeString(source, regex, replacer, label)`
with the regex-plus-replacer pair abstracted as `matchAt`. -/
def replaceRegexPreserveLengthNativeString
    (matchAt : List Char → Option (Nat × List Char)) (s : List Char) :
    Except String (List Char) :=
  rrplGo matchAt s.length s

/-! ## The gate-removal regex rules of `patch-thinking.js` (lines 925-932),
rendered as recursive-descent matchers over the text.

`[$\w]+` is a maximal run of word characters; since every following regex
token starts with a non-word character (`&`, `)`, `.`, `,`, `\x7d`), maximal
munch coincides with the backtracking regex semantics.  The optional
`(?:&&![$\w]+)?` group is committed when `&&!` is present: if its word run
then fails, the regex's backtracking alternative (`)return null;` starting at
`&`) also fails, so overall failure is equivalent. -/

/-- Consume a literal token or fail. -/
def eatLit (lit s : List Char) : Option (List Char) :=
  if isPrefixList lit s then some (s.drop lit.length) else none

/-- JS regex class `[$\w]`: `[A-Za-z0-9_$]`. -/
def isWordChar (c : Char) : Bool :=
  (65 ≤ c.toNat && c.toNat ≤ 90) || (97 ≤ c.toNat && c.toNat ≤ 122) ||
    (48 ≤ c.toNat && c.toNat ≤ 57) || c = '_' || c = '$'

/-- Consume `[$\w]+` (at least one word character) or fail. -/
def eatWord1 (s : List Char) : Option (List Char) :=
  let w := s.takeWhile isWordChar
  if w.isEmpty then none else some (s.drop w.length)

/-- The short-circuit gate
`if\(![$\w]+&&![$\w]+(?:&&![$\w]+)?\)return null;` shared by both regexes. -/
def eatGate (s : List Char) : Option (List Char) := do
  let s1 ← eatLit (strChars "if(!") s
  let s2 ← eatWord1 s1
  let s3 ← eatLit (strChars "&&!") s2
  let s4 ← eatWord1 s3
  let s5 ← match eatLit (strChars "&&!") s4 with
    | none => some s4
    | some t => eatWord1 t
  eatLit (strChars ")return null;") s5

/-- The shared head of the return expression:
`return [$\w]+\.createElement\([$\w]+,\{addMargin:[$\w]+`. -/
def eatCreateHead (s : List Char) : Option (List Char) := do
  let s1 ← eatLit (strChars "return ") s
  let s2 ← eatWord1 s1
  let s3 ← eatLit (strChars ".createElement(") s2
  let s4 ← eatWord1 s3
  let s5 ← eatLit (strChars ",\x7baddMargin:") s4
  eatWord1 s5

/-- The tail `,param:[$\w]+,isTranscriptMode:` of the old-format thinking
regex, up to the captured `isTranscriptMode` value. -/
def eatParamHead (s : List Char) : Option (List Char) := do
  let s1 ← eatLit (strChars ",param:") s
  let s2 ← eatWord1 s1
  eatLit (strChars ",isTranscriptMode:") s2

/-- `nativeRedactedThinkingCallsiteRegex_noBraces` together with its replacer
`(_m, casePrefix, returnExpr) => casePrefix + returnExpr`: matches
`case"redacted_thinking":if(!W&&!W(&&!W)?)return null;` followed by
`return W.createElement(W,\x7baddMargin:W\x7d);` and rebuilds the match
without the short-circuit gate.  Returns (match length, raw replacement). -/
def matchRedactedNoBraces (s : List Char) : Option (Nat × List Char) := do
  let s1 ← eatLit (strChars "case\"redacted_thinking\":") s
  let s7 ← eatGate s1
  let s13 ← eatCreateHead s7
  let sEnd ← eatLit (strChars "\x7d);") s13
  some (s.length - sEnd.length,
    strChars "case\"redacted_thinking\":" ++ s7.take (s7.length - sEnd.length))

/-- `nativeThinkingCallsiteRegex_oldFormat` together with its replacer: the
gate is removed and the captured `isTranscriptMode` argument is rewritten to
`!0`, keeping the captured `,verbose:` key, verbose variable and `\x7d);`
suffix (`;` optional). -/
def matchThinkingOldFormat (s : List Char) : Option (Nat × List Char) := do
  let s1 ← eatLit (strChars "case\"thinking\":") s
  let s7 ← eatGate s1
  let s13 ← eatCreateHead s7
  let s16 ← eatParamHead s13
  let s17 ← eatWord1 s16
  let s18 ← eatLit (strChars ",verbose:") s17
  let s19 ← eatWord1 s18
  let s20 ← eatLit (strChars "\x7d)") s19
  let sEnd := match eatLit (strChars ";") s20 with
    | some t => t
    | none => s20
  some (s.length - sEnd.length,
    strChars "case\"thinking\":" ++ s7.take (s7.length - s16.length) ++
      strChars "!0" ++ strChars ",verbose:" ++ s18.take (s18.length - s19.length) ++
      s19.take (s19.length - sEnd.length))

/-- Exact-literal search string of patch 2 for v2.0.62
(`thinkingSearchPattern_v2062`, `patch-thinking.js` lines 196-197). -/
def thinkingSearchPattern_v2062 : List Char :=
  strChars "case\"thinking\":if(!F&&!G)return null;return J3.createElement(X59,\x7baddMargin:Q,param:A,isTranscriptMode:F,verbose:G\x7d);"

/-- Exact-literal replacement of patch 2 for v2.0.62
(`thinkingReplacement_v2062`, lines 198-199). -/
def thinkingReplacement_v2062 : List Char :=
  strChars "case\"thinking\":return J3.createElement(X59,\x7baddMargin:Q,param:A,isTranscriptMode:!0,verbose:G\x7d);"

/-! ## Backup and restore (`patch-npm-deprecation-warning.js` lines 287-306
and the main flow at lines 587-644; `patch-thinking.js` and
`patch-subagent-models.js` use the same create-once backup logic).

The filesystem is restricted to the two paths the program touches: the target
file and its `.backup` sibling. -/

/-- The target file and its backup sibling. -/
structure PatchFS where
  target : List Nat
  backup : Option (List Nat)
deriving DecidableEq

/-- `ensureBackup(targetPath)`: copy the target to the backup path unless the
backup already exists. -/
def ensureBackup (fs : PatchFS) : PatchFS :=
  match fs.backup with
  | some _ => fs
  | none => { fs with backup := some fs.target }

/-- `restoreFromBackup(targetPath)`: `none` models the `exit(1)` when no
backup exists; otherwise the backup is copied over the target. -/
def restoreFromBackup (fs : PatchFS) : Option PatchFS :=
  match fs.backup with
  | none => none
  | some b => some { fs with target := b }

/-- One successful patch run (main flow): compute the patched content from
the current target; when the patch applies, `ensureBackup` runs and then the
target is overwritten; when nothing applies, neither file changes. -/
def patchRun (applyPatch : List Nat → Option (List Nat)) (fs : PatchFS) : PatchFS :=
  match applyPatch fs.target with
  | none => fs
  | some newContent =>
    let fs1 := ensureBackup fs
    { fs1 with target := newContent }

/-! ## Target classifier (`patch-npm-deprecation-warning.js` lines 61-110;
`patch-thinking.js` and `patch-subagent-models.js` carry the same
`detectClaudeTargetKind`). -/

/-- Classification result. -/
inductive TargetKind where
  | js
  | nativeBinary
  | unknown
deriving DecidableEq

/-- A file as the classifier sees it: whether opening/reading succeeds, and
its bytes. -/
structure FileOnDisk where
  readable : Bool
  bytes : List Nat

/-- `readFilePrefix(filePath, maxBytes = 4096)`: at most the first 4096
bytes; `none` when the read fails or reads zero bytes. -/
def readFilePrefix (f : FileOnDisk) : Option (List Nat) :=
  if f.readable then
    let p := f.bytes.take 4096
    if p.length = 0 then none else some p
  else none

/-- Suffix test for `filePath.endsWith('.js')`. -/
def isSuffixList [DecidableEq α] (n h : List α) : Bool :=
  isPrefixList n.reverse h.reverse

/-- ELF magic: `0x7F 'E' 'L' 'F'`. -/
def isElfMagic (p : List Nat) : Bool :=
  match p with
  | b0 :: b1 :: b2 :: b3 :: _ => b0 = 0x7f && b1 = 0x45 && b2 = 0x4c && b3 = 0x46
  | _ => false

/-- PE/COFF magic: `'MZ'`. -/
def isPeMagic (p : List Nat) : Bool :=
  match p with
  | b0 :: b1 :: _ => b0 = 0x4d && b1 = 0x5a
  | _ => false

/-- `prefix.readUInt32BE(0)` on a buffer of length at least 4. -/
def readUInt32BE0 : List Nat → Nat
  | b0 :: b1 :: b2 :: b3 :: _ => ((b0 * 256 + b1) * 256 + b2) * 256 + b3
  | _ => 0

/-- Mach-O thin and fat magics (`FE ED FA CE`, `FE ED FA CF`, `CF FA ED FE`,
`CA FE BA BE`). -/
def isMachOMagic (p : List Nat) : Bool :=
  if p.length < 4 then false
  else
    let m := readUInt32BE0 p
    m = 0xfeedface || m = 0xfeedfacf || m = 0xcffaedfe || m = 0xcafebabe

/-- Shebang test: `prefix.toString('utf8').startsWith('#!')` holds exactly
when the prefix bytes start with `0x23 0x21` (both ASCII). -/
def startsWithShebang (p : List Nat) : Bool :=
  isPrefixList [0x23, 0x21] p

/-- `detectClaudeTargetKind(filePath)`. -/
def detectClaudeTargetKind (path : List Char) (f : FileOnDisk) : TargetKind :=
  if isSuffixList (strChars ".js") path then .js
  else
    match readFilePrefix f with
    | none => .unknown
    | some pfx =>
      if pfx.contains 0 then .nativeBinary
      else if isElfMagic pfx then .nativeBinary
      else if isPeMagic pfx then .nativeBinary
      else if isMachOMagic pfx then .nativeBinary
      else if startsWithShebang pfx then .js
      else .unknown

/-! ## `getModelConfiguration` (`patch-subagent-models.js` lines 212-235).

The two candidate config files are a list of `Option` contents (`none` when
the file does not exist); `JSON.parse` is abstracted as a total function
returning `none` where the real parser throws (the source catches that throw,
warns, and falls through to the next candidate). -/

/-- `getModelConfiguration()`: first candidate file that exists and parses;
`none` when none does. -/
def getModelConfiguration (parse : List Char → Option σ) :
    List (Option (List Char)) → Option σ
  | [] => none
  | none :: rest => getModelConfiguration parse rest
  | some content :: rest =>
    match parse content with
    | some cfg => some cfg
    | none => getModelConfiguration parse rest

end ClaudePatches

namespace ClaudePatches

/-- Any index returned by the scanner loop lies inside the scanned suffix. -/
theorem fmpGo_lt (st : ScanSt) (i : Nat) (l : List Char) (j : Nat)
    (h : fmpGo st i l = some j) : j < i + l.length := by
  induction l generalizing st i with
  | nil => simp [fmpGo] at h
  | cons c rest ih =>
    simp only [fmpGo] at h
    repeat' split at h
    all_goals first
      | (simp only [List.length_cons]; have hj := ih _ _ h; omega)
      | (simp only [Option.some.injEq] at h; subst h; simp only [List.length_cons]; omega)

/-- Same bound for the spec-side scanner. -/
theorem fmpGoSpec_lt (st : ScanSt) (i : Nat) (l : List Char) (j : Nat)
    (h : fmpGoSpec st i l = some j) : j < i + l.length := by
  induction l generalizing st i with
  | nil => simp [fmpGoSpec] at h
  | cons c rest ih =>
    simp only [fmpGoSpec] at h
    repeat' split at h
    all_goals first
      | (simp only [List.length_cons]; have hj := ih _ _ h; omega)
      | (simp only [Option.some.injEq] at h; subst h; simp only [List.length_cons]; omega)

/-- A successful scan returns an index strictly inside the string. -/
theorem findMatchingParen_lt (s : List Char) (k j : Nat)
    (h : findMatchingParen s k = some j) : j < s.length := by
  have := fmpGo_lt _ _ _ _ h
  have hk : k ≤ s.length ∨ s.length < k := le_or_lt k s.length
  rcases hk with hk | hk
  · have : j < k + (s.length - k) := by simpa [List.length_drop] using this
    omega
  · have hdrop : s.drop k = [] := List.drop_eq_nil_of_le (le_of_lt hk)
    rw [findMatchingParen, hdrop] at h
    simp [fmpGo] at h

/-! ### Lemmas about the string primitives -/

theorem isPrefixList_length_le [DecidableEq α] {n h : List α}
    (hp : isPrefixList n h = true) : n.length ≤ h.length := by
  induction n generalizing h with
  | nil => simp
  | cons a t ih =>
    cases h with
    | nil => simp [isPrefixList] at hp
    | cons b h' =>
      simp only [isPrefixList] at hp
      split at hp
      · have := ih hp
        simp only [List.length_cons]
        omega
      · cases hp

theorem isPrefixList_append_self [DecidableEq α] (n t : List α) :
    isPrefixList n (n ++ t) = true := by
  induction n with
  | nil => rfl
  | cons a n ih => simp [isPrefixList, ih]

theorem indexOfList_le [DecidableEq α] {n h : List α} {i : Nat}
    (hi : indexOfList n h = some i) : i ≤ h.length := by
  induction h generalizing i with
  | nil =>
    simp only [indexOfList] at hi
    split at hi
    · cases hi; simp
    · cases hi
  | cons b t ih =>
    simp only [indexOfList] at hi
    split at hi
    · cases hi; simp
    · rcases Option.map_eq_some'.1 hi with ⟨j, hj, rfl⟩
      have := ih hj
      simp only [List.length_cons]
      omega

theorem indexOfList_at [DecidableEq α] {n h : List α} {i : Nat}
    (hi : indexOfList n h = some i) : isPrefixList n (h.drop i) = true := by
  induction h generalizing i with
  | nil =>
    simp only [indexOfList] at hi
    split at hi
    · cases hi
      rename_i he
      cases n
      · rfl
      · simp at he
    · cases hi
  | cons b t ih =>
    simp only [indexOfList] at hi
    split at hi
    · cases hi
      assumption
    · rcases Option.map_eq_some'.1 hi with ⟨j, hj, rfl⟩
      simpa using ih hj

theorem indexOfList_min [DecidableEq α] {n h : List α} {i : Nat}
    (hi : indexOfList n h = some i) :
    ∀ j, j < i → isPrefixList n (h.drop j) = false := by
  induction h generalizing i with
  | nil =>
    intro j hj
    simp only [indexOfList] at hi
    split at hi
    · cases hi; omega
    · cases hi
  | cons b t ih =>
    intro j hj
    simp only [indexOfList] at hi
    split at hi
    · cases hi; omega
    · rcases Option.map_eq_some'.1 hi with ⟨k, hk, rfl⟩
      cases j with
      | zero =>
        simp only [List.drop_zero]
        rename_i hnp
        exact Bool.not_eq_true _ ▸ (by simpa using hnp)
      | succ j' =>
        simpa using ih hk j' (by omega)

theorem indexOfList_none [DecidableEq α] {n h : List α}
    (hn : indexOfList n h = none) :
    ∀ j, isPrefixList n (h.drop j) = false := by
  induction h with
  | nil =>
    intro j
    simp only [indexOfList] at hn
    split at hn
    · cases hn
    · rename_i he
      cases n
      · simp at he
      · simp [isPrefixList]
  | cons b t ih =>
    intro j
    simp only [indexOfList] at hn
    split at hn
    · cases hn
    · rename_i hnp
      have ht : indexOfList n t = none := by
        cases hx : indexOfList n t
        · rfl
        · rw [hx] at hn; simp at hn
      cases j with
      | zero =>
        simp only [List.drop_zero]
        simpa using hnp
      | succ j' => simpa using ih ht j'

theorem indexOfList_isSome_of_at [DecidableEq α] {n h : List α} {j : Nat}
    (hj : isPrefixList n (h.drop j) = true) : (indexOfList n h).isSome = true := by
  cases hx : indexOfList n h
  · have := indexOfList_none hx j
    rw [hj] at this
    cases this
  · rfl

theorem includes_true_of_at [DecidableEq α] {content pat : List α} {j : Nat}
    (hj : isPrefixList pat (content.drop j) = true) : includes content pat = true :=
  indexOfList_isSome_of_at hj

theorem padRightSpaces_length {s : List Char} {L : Nat} {p : List Char}
    (hp : padRightSpaces s L = some p) : p.length = L := by
  unfold padRightSpaces at hp
  split at hp
  · cases hp
  · cases hp
    rename_i hle
    simp only [List.length_append, List.length_replicate]
    omega

theorem replaceFirst_eq_of_none [DecidableEq α] {c search repl : List α}
    (h : indexOfList search c = none) : replaceFirst c search repl = c := by
  unfold replaceFirst
  rw [h]

theorem walkBack_le (p : Char → Bool) (s : List Char) (k : Nat) :
    walkBack p s k ≤ k := by
  induction k with
  | zero => simp [walkBack]
  | succ k ih =>
    simp only [walkBack]
    split
    · exact Nat.le_succ_of_le ih
    · exact Nat.le_refl _

/-! ### Length preservation of the native patch engine -/

theorem patchOnce_length (s : List Char) : ((patchOnce s).2).length = s.length := by
  unfold patchOnce
  cases hk : indexOfList keyNeedle s with
  | none => rfl
  | some idxKey =>
    simp only
    cases hl : lastIndexOfList openBraceTok ((s.take (idxKey + keyNeedle.length)).drop (idxKey - 2500)) with
    | none => rfl
    | some relObj =>
      simp only
      cases hf : findMatchingParen s (idxKey - 2500 + relObj) with
      | none => rfl
      | some closeParenIndex =>
        have hcl : closeParenIndex < s.length := findMatchingParen_lt _ _ _ hf
        simp only
        split
        · rfl
        · split
          · rfl
          · rename_i hguard
            cases hp : padRightSpaces ['0']
                (closeParenIndex + 1 - walkBack isIdentChar s (walkBack jsIsSpace s (idxKey - 2500 + relObj))) with
            | none => rfl
            | some replacement =>
              have hrl := padRightSpaces_length hp
              simp only [List.length_append, List.length_take, List.length_drop, hrl]
              omega

theorem patchLoop_length (n : Nat) (did : Bool) (t : List Char) :
    ((patchLoop n did t).2).length = t.length := by
  induction n generalizing did t with
  | zero => rfl
  | succ n ih =>
    simp only [patchLoop]
    split
    · rw [ih]
      exact patchOnce_length t
    · rfl

theorem replaceOnceExact_length {src search repl out : List Nat}
    (h : replaceOnceExact src search repl = .ok out) : out.length = src.length := by
  unfold replaceOnceExact at h
  split at h
  · cases h
  · rename_i hfit
    cases hx : indexOfList search src with
    | none => rw [hx] at h; cases h; rfl
    | some idx =>
      rw [hx] at h
      cases h
      have h1 : idx ≤ src.length := indexOfList_le hx
      have h2 : search.length ≤ (src.drop idx).length :=
        isPrefixList_length_le (indexOfList_at hx)
      rw [List.length_drop] at h2
      simp only [List.length_append, List.length_take, List.length_replicate,
        List.length_drop]
      omega

theorem exceptMap_ok {ε α β : Type} {e : Except ε α} {f : α → β} {b : β}
    (h : e.map f = .ok b) : ∃ a, e = .ok a ∧ b = f a := by
  cases e with
  | error e => simp [Except.map] at h
  | ok a =>
    refine ⟨a, rfl, ?_⟩
    simpa [Except.map, eq_comm] using h

theorem rrplGo_length (matchAt : List Char → Option (Nat × List Char))
    (hm : ∀ t len r, matchAt t = some (len, r) → len ≤ t.length) :
    ∀ fuel l out, l.length ≤ fuel → rrplGo matchAt fuel l = .ok out →
      out.length = l.length := by
  intro fuel
  induction fuel with
  | zero =>
    intro l out hle h
    cases l with
    | nil => cases h; rfl
    | cons c rest => simp at hle
  | succ fuel ih =>
    intro l out hle h
    cases l with
    | nil => cases h; rfl
    | cons c rest =>
      simp only [rrplGo] at h
      split at h
      · rcases exceptMap_ok h with ⟨t, ht, rfl⟩
        have := ih rest t (by simp at hle; omega) ht
        simp [this]
      · rename_i len repl hma
        split at h
        · cases h
        · rename_i padded hp
          have hpl := padRightSpaces_length hp
          have hlen := hm _ _ _ hma
          split at h
          · rcases exceptMap_ok h with ⟨t, ht, rfl⟩
            have := ih rest t (by simp at hle; omega) ht
            rename_i h0
            subst h0
            simp only [List.length_append, List.length_cons, this, hpl]
            omega
          · rcases exceptMap_ok h with ⟨t, ht, rfl⟩
            have hdl : ((c :: rest).drop len).length = (c :: rest).length - len := by
              simp [List.length_drop]
            have := ih ((c :: rest).drop len) t
              (by simp only [List.length_cons] at hle ⊢
                  simp only [List.length_drop, List.length_cons]
                  omega) ht
            simp only [List.length_append, this, hdl, hpl]
            simp only [List.length_cons] at hlen ⊢
            omega

/-! ## Claim theorems -/

/-- C1: the claim says a backslash inside a single-, double- or
template-quoted literal suppresses interpretation of the following character,
including a closing quote, so that `findMatchingParen` returns the index of
the true matching parenthesis.  The source's escape test `ch === '\\\\'`
compares the 1-character `ch` against a 2-character string and can never
fire, so on `f("\")")` with the opening parenthesis at index 1 the scanner
leaves the double-quoted literal at the unescaped-looking quote and returns
5 (the parenthesis inside the literal), while a scanner with working escape
tracking (spec section 4.2, `findMatchingCloseSpec`) returns the real
matching parenthesis at index 7. -/
theorem c1_findMatchingParen_escape_dead :
    findMatchingParen (strChars "f(\"\\\")\")") 1 = some 5 ∧
    findMatchingCloseSpec (strChars "f(\"\\\")\")") 1 = some 7 ∧
    (strChars "f(\"\\\")\")").length = 8 := by
  refine ⟨by decide, by decide, by decide⟩

/-- C2: every native-binary patch-application function is length-preserving
and guarded: `patchOnce` of the marker-based deprecation patch preserves the
text length; `applyPatchToNativeBinary` only returns buffers of the input
length (the length equality is checked before any write-back and a mismatch
is a thrown error); the exact-string in-place replacement
`replaceOnceExact` preserves the byte length whenever it succeeds;
`padRightSpaces` produces exactly the target length; the global
length-preserving regex replacement preserves the total length for every
matcher whose matches fit in the text; and the pre-write guard passes a
content through unchanged only when its length equals the original. -/
theorem c2_native_patching_length_preserving :
    (∀ s : List Char, ((patchOnce s).2).length = s.length)
    ∧ (∀ (buf : List Nat) (r : Bool × List Nat),
        applyPatchToNativeBinary buf = .ok r → r.2.length = buf.length)
    ∧ (∀ src search repl out : List Nat,
        replaceOnceExact src search repl = .ok out → out.length = src.length)
    ∧ (∀ (repl : List Char) (L : Nat) (p : List Char),
        padRightSpaces repl L = some p → p.length = L)
    ∧ (∀ (matchAt : List Char → Option (Nat × List Char)) (s out : List Char),
        (∀ t len r, matchAt t = some (len, r) → len ≤ t.length) →
        replaceRegexPreserveLengthNativeString matchAt s = .ok out →
        out.length = s.length)
    ∧ (∀ (origLen : Nat) (content out : List Char),
        nativeWriteGuard origLen content = some out →
        out.length = origLen ∧ out = content) := by
  refine ⟨patchOnce_length, ?_, ?_, ?_, ?_, ?_⟩
  · intro buf r h
    simp only [applyPatchToNativeBinary] at h
    split at h
    · cases h
    · rename_i hlen
      cases h
      simpa using hlen
  · intro src search repl out h
    exact replaceOnceExact_length h
  · intro repl L p hp
    exact padRightSpaces_length hp
  · intro matchAt s out hm h
    exact rrplGo_length matchAt hm s.length s out (Nat.le_refl _) h
  · intro origLen content out h
    unfold nativeWriteGuard at h
    split at h
    · cases h
    · rename_i hne
      cases h
      exact ⟨by omega, rfl⟩

/-- Witness for C2: the exact-string conjunct evaluated at a concrete
replacement. -/
theorem c2_witness :
    (strBytes "xBy").length = (strBytes "xAy").length :=
  c2_native_patching_length_preserving.2.2.1
    (strBytes "xAy") (strBytes "A") (strBytes "B") (strBytes "xBy") (by rfl)

/-- C3: a replacement strictly longer than the matched span raises before
any write: `replaceOnceExact` throws before even searching the buffer, the
subagent `padRightSpaces` length check fails, and in both apply-then-write
sequences the on-disk content is left byte-identical. -/
theorem c3_longer_replacement_raises_before_write
    (disk search repl : List Nat) (diskC searchC replC : List Char)
    (h : search.length < repl.length) (hC : searchC.length < replC.length) :
    (∃ e, replaceOnceExact disk search repl = .error e)
    ∧ runExactPatchNative disk search repl = disk
    ∧ padRightSpaces replC searchC.length = none
    ∧ (∃ e, applySubagentExactNative diskC searchC replC = .error e)
    ∧ runSubagentPatchNative diskC searchC replC = diskC := by
  have h1 : replaceOnceExact disk search repl =
      .error "Native/binary install patch too large for in-place replacement" := by
    unfold replaceOnceExact
    rw [if_pos h]
  have h2 : padRightSpaces replC searchC.length = none := by
    unfold padRightSpaces
    rw [if_pos hC]
  refine ⟨⟨_, h1⟩, ?_, h2, ?_, ?_⟩
  · unfold runExactPatchNative
    rw [h1]
  · exact ⟨"Native/binary install patch too large for in-place replacement",
      by unfold applySubagentExactNative; rw [h2]⟩
  · unfold runSubagentPatchNative applySubagentExactNative
    rw [h2]

/-- Witness for C3: a one-byte span with a two-byte replacement. -/
theorem c3_witness :
    runExactPatchNative (strBytes "abc") (strBytes "b") (strBytes "XY") = strBytes "abc"
    ∧ padRightSpaces (strChars "XY") (strChars "b").length = none := by
  have H := c3_longer_replacement_raises_before_write
    (strBytes "abc") (strBytes "b") (strBytes "XY")
    (strChars "abc") (strChars "b") (strChars "XY") (by decide) (by decide)
  exact ⟨H.2.1, H.2.2.1⟩

/-- C4: on a native-binary buffer containing the marker-key call
`foo(\x7ba:1,key:"npm-deprecation-warning"\x7d)`, the chain locates `(` at
index 5, the matching `)` at index 41 and the callee start at index 2, i.e.
exactly the span from `foo` through the closing parenthesis, and
`applyPatchToNativeBinary` replaces that 40-byte span by `0` followed by 39
ASCII spaces, leaving the surrounding bytes intact. -/
theorem c4_marker_patch_concrete :
    findMatchingParen
      (strChars "A=foo(\x7ba:1,key:\"npm-deprecation-warning\"\x7d);") 5 = some 41
    ∧ walkBack isIdentChar
        (strChars "A=foo(\x7ba:1,key:\"npm-deprecation-warning\"\x7d);")
        (walkBack jsIsSpace
          (strChars "A=foo(\x7ba:1,key:\"npm-deprecation-warning\"\x7d);") 5) = 2
    ∧ applyPatchToNativeBinary
        (strBytes "A=foo(\x7ba:1,key:\"npm-deprecation-warning\"\x7d);")
      = .ok (true, strBytes ("A=0" ++ String.mk (List.replicate 39 ' ') ++ ";")) := by
  refine ⟨by decide, by decide, by rfl⟩

/-- C5 counterexample: with search `ba`, replacement `ab` and content `bba`,
the search occurs exactly once and the replacement is absent, yet after
applying the rule the result `bab` still contains the search string (so
detection reports `found`, not `alreadyApplied`) and re-applying the
transform changes the content again. -/
theorem c5_counterexample :
    occCount (strChars "ba") (strChars "bba") = 1
    ∧ includes (strChars "bba") (strChars "ab") = false
    ∧ replaceFirst (strChars "bba") (strChars "ba") (strChars "ab") = strChars "bab"
    ∧ includes (strChars "bab") (strChars "ba") = true
    ∧ replaceFirst (strChars "bab") (strChars "ba") (strChars "ab") ≠ strChars "bab" := by
  decide

/-- C5 amended: for every exact-literal rule and content in which the search
string occurs exactly once, the replacement is not yet present, and the
replacement does not recreate the search string in the patched content:
detection reports found before application; afterwards the replacement is
present and the search absent (`alreadyApplied`), and re-applying the
transform is a no-op. -/
theorem c5_exact_rule_idempotent (content search repl : List Char)
    (h1 : occCount search content = 1)
    (h2 : includes content repl = false)
    (h3 : includes (replaceFirst content search repl) search = false) :
    includes content search = true
    ∧ includes (replaceFirst content search repl) repl = true
    ∧ replaceFirst (replaceFirst content search repl) search repl
        = replaceFirst content search repl := by
  have hfound : includes content search = true := by
    unfold occCount at h1
    rcases List.length_eq_one.1 h1 with ⟨j, hj⟩
    have hjmem : j ∈ (List.range (content.length + 1)).filter
        (fun i => isPrefixList search (content.drop i)) := by
      rw [hj]; exact List.mem_singleton_self j
    rcases List.mem_filter.1 hjmem with ⟨-, hpred⟩
    exact includes_true_of_at (by simpa using hpred)
  rcases Option.isSome_iff_exists.1 hfound with ⟨idx, hidx⟩
  have hle : idx ≤ content.length := indexOfList_le hidx
  have hres : replaceFirst content search repl =
      content.take idx ++ repl ++ content.drop (idx + search.length) := by
    unfold replaceFirst
    rw [hidx]
  refine ⟨hfound, ?_, ?_⟩
  · have htl : (content.take idx).length = idx := by
      rw [List.length_take]; omega
    have hdrop : (replaceFirst content search repl).drop idx =
        repl ++ content.drop (idx + search.length) := by
      rw [hres, List.append_assoc]
      exact List.drop_left' htl
    exact @includes_true_of_at _ _ _ _ idx
      (by rw [hdrop]; exact isPrefixList_append_self _ _)
  · have hnone : indexOfList search (replaceFirst content search repl) = none := by
      cases hx : indexOfList search (replaceFirst content search repl) with
      | none => rfl
      | some v => rw [includes, hx] at h3; simp at h3
    exact replaceFirst_eq_of_none hnone

/-- Witness for C5: a disjoint search/replacement pair. -/
theorem c5_witness :
    includes (strChars "zabcw") (strChars "abc") = true
    ∧ includes (replaceFirst (strChars "zabcw") (strChars "abc") (strChars "xy"))
        (strChars "xy") = true
    ∧ replaceFirst (replaceFirst (strChars "zabcw") (strChars "abc") (strChars "xy"))
        (strChars "abc") (strChars "xy")
      = replaceFirst (strChars "zabcw") (strChars "abc") (strChars "xy") :=
  c5_exact_rule_idempotent (strChars "zabcw") (strChars "abc") (strChars "xy")
    (by decide) (by decide) (by decide)

/-- C6 counterexample: no rule of the repository matches the literal content
`case"x":if(!A&&!B)return null;return f(y);` — the gate-removal regexes
anchor on `case"thinking":`/`case"redacted_thinking":` and the v2.0.62
exact-literal rule on its full minified pattern — so applying each cited rule
leaves the content unchanged instead of yielding `case"x":return f(y);`. -/
theorem c6_counterexample :
    replaceRegexPreserveLengthNativeString matchThinkingOldFormat
      (strChars "case\"x\":if(!A&&!B)return null;return f(y);")
      = .ok (strChars "case\"x\":if(!A&&!B)return null;return f(y);")
    ∧ replaceRegexPreserveLengthNativeString matchRedactedNoBraces
        (strChars "case\"x\":if(!A&&!B)return null;return f(y);")
      = .ok (strChars "case\"x\":if(!A&&!B)return null;return f(y);")
    ∧ replaceFirst (strChars "case\"x\":if(!A&&!B)return null;return f(y);")
        thinkingSearchPattern_v2062 thinkingReplacement_v2062
      = strChars "case\"x\":if(!A&&!B)return null;return f(y);"
    ∧ strChars "case\"x\":if(!A&&!B)return null;return f(y);"
      ≠ strChars "case\"x\":return f(y);" := by
  refine ⟨by rfl, by rfl, by rfl, by decide⟩

/-- C6 amended: the pure gate-removal rule is the native redacted_thinking
regex; on content shaped like its pattern,
`case"redacted_thinking":if(!A&&!B)return null;return f.createElement(g,\x7baddMargin:h\x7d);`,
it removes the short-circuit gate `if(!A&&!B)return null;`, preserves the tail
`return f.createElement(g,\x7baddMargin:h\x7d);`, and pads with 22 trailing
spaces to preserve the byte length. -/
theorem c6_gate_removal_concrete :
    replaceRegexPreserveLengthNativeString matchRedactedNoBraces
      (strChars "case\"redacted_thinking\":if(!A&&!B)return null;return f.createElement(g,\x7baddMargin:h\x7d);")
      = .ok (strChars "case\"redacted_thinking\":return f.createElement(g,\x7baddMargin:h\x7d);"
          ++ List.replicate 22 ' ') := by
  rfl

/-- C7: starting from a target with no backup, a successful patch run
creates the backup as a byte-for-byte copy of the original before writing,
later runs never overwrite the existing backup, and restore reproduces the
original content byte-for-byte, also after further patch runs. -/
theorem c7_backup_roundtrip (fs : PatchFS) (applyPatch : List Nat → Option (List Nat))
    (out : List Nat) (h0 : fs.backup = none) (h1 : applyPatch fs.target = some out) :
    (patchRun applyPatch fs).backup = some fs.target
    ∧ (patchRun applyPatch fs).target = out
    ∧ (∀ g, (patchRun g (patchRun applyPatch fs)).backup = some fs.target)
    ∧ restoreFromBackup (patchRun applyPatch fs)
        = some ⟨fs.target, some fs.target⟩
    ∧ (∀ g, restoreFromBackup (patchRun g (patchRun applyPatch fs))
        = some ⟨fs.target, some fs.target⟩) := by
  have hrun : patchRun applyPatch fs = ⟨out, some fs.target⟩ := by
    unfold patchRun ensureBackup
    rw [h1, h0]
  have hrun2 : ∀ g, (patchRun g (⟨out, some fs.target⟩ : PatchFS)).backup
      = some fs.target := by
    intro g
    unfold patchRun ensureBackup
    cases g out <;> rfl
  refine ⟨by rw [hrun], by rw [hrun], ?_, by rw [hrun]; rfl, ?_⟩
  · intro g
    rw [hrun]
    exact hrun2 g
  · intro g
    rw [hrun]
    rcases hfs2 : patchRun g (⟨out, some fs.target⟩ : PatchFS) with ⟨t2, b2⟩
    have hb := hrun2 g
    rw [hfs2] at hb
    simp only at hb
    unfold restoreFromBackup
    rw [hb]

/-- Witness for C7: a two-byte target patched to `[9, 9]`. -/
theorem c7_witness :
    (patchRun (fun _ => some [9, 9]) ⟨[1, 2], none⟩).backup = some [1, 2]
    ∧ restoreFromBackup (patchRun (fun _ => some [9, 9]) ⟨[1, 2], none⟩)
        = some ⟨[1, 2], some [1, 2]⟩ := by
  have H := c7_backup_roundtrip ⟨[1, 2], none⟩ (fun _ => some [9, 9]) [9, 9] rfl rfl
  exact ⟨H.1, H.2.2.2.1⟩

/-- C8: the classifier returns `js` for any `.js` path without consulting the
file; otherwise it reads a bounded prefix of at most 4096 bytes; a NUL byte
or an ELF, PE, or Mach-O (thin or fat) magic classifies `nativeBinary`; else
a leading shebang classifies `js`; else `unknown`; an unreadable (or empty)
file yields `unknown` instead of an exception. -/
theorem c8_classifier_contract :
    (∀ (path : List Char) (f : FileOnDisk),
        isSuffixList (strChars ".js") path = true →
        detectClaudeTargetKind path f = .js)
    ∧ (∀ (path : List Char) (f : FileOnDisk),
        isSuffixList (strChars ".js") path = false →
        readFilePrefix f = none → detectClaudeTargetKind path f = .unknown)
    ∧ (∀ (path : List Char) (f : FileOnDisk) (pfx : List Nat),
        isSuffixList (strChars ".js") path = false →
        readFilePrefix f = some pfx →
        ((pfx.contains 0 || isElfMagic pfx || isPeMagic pfx || isMachOMagic pfx) = true →
            detectClaudeTargetKind path f = .nativeBinary)
        ∧ ((pfx.contains 0 || isElfMagic pfx || isPeMagic pfx || isMachOMagic pfx) = false →
            startsWithShebang pfx = true → detectClaudeTargetKind path f = .js)
        ∧ ((pfx.contains 0 || isElfMagic pfx || isPeMagic pfx || isMachOMagic pfx) = false →
            startsWithShebang pfx = false → detectClaudeTargetKind path f = .unknown))
    ∧ (∀ (f : FileOnDisk) (pfx : List Nat),
        readFilePrefix f = some pfx → pfx.length ≤ 4096)
    ∧ (∀ f : FileOnDisk, f.readable = false → readFilePrefix f = none) := by
  refine ⟨?_, ?_, ?_, ?_, ?_⟩
  · intro path f hjs
    unfold detectClaudeTargetKind
    rw [if_pos hjs]
  · intro path f hjs hread
    unfold detectClaudeTargetKind
    rw [if_neg (by simp [hjs]), hread]
  · intro path f pfx hjs hread
    refine ⟨?_, ?_, ?_⟩
    · intro hmagic
      unfold detectClaudeTargetKind
      rw [if_neg (by simp [hjs]), hread]
      dsimp only
      split_ifs with h1 h2 h3 h4 h5 <;> first | rfl | (exfalso; simp_all)
    · intro hmagic hsh
      unfold detectClaudeTargetKind
      rw [if_neg (by simp [hjs]), hread]
      dsimp only
      split_ifs with h1 h2 h3 h4 h5 <;> first | rfl | (exfalso; simp_all)
    · intro hmagic hsh
      unfold detectClaudeTargetKind
      rw [if_neg (by simp [hjs]), hread]
      dsimp only
      split_ifs with h1 h2 h3 h4 h5 <;> first | rfl | (exfalso; simp_all)
  · intro f pfx hread
    simp only [readFilePrefix] at hread
    split at hread
    · split at hread
      · cases hread
      · cases hread
        simpa using List.length_take_le 4096 f.bytes
    · cases hread
  · intro f hf
    unfold readFilePrefix
    rw [hf]
    rfl

/-- Witness for C8: a `.js` path on an unreadable file still classifies as a
script, and an unreadable non-`.js` file classifies as unknown. -/
theorem c8_witness :
    detectClaudeTargetKind (strChars "cli.js") ⟨false, []⟩ = .js
    ∧ detectClaudeTargetKind (strChars "claude") ⟨false, []⟩ = .unknown := by
  refine ⟨c8_classifier_contract.1 (strChars "cli.js") ⟨false, []⟩ (by decide), ?_⟩
  exact c8_classifier_contract.2.1 (strChars "claude") ⟨false, []⟩ (by decide)
    (c8_classifier_contract.2.2.2.2 ⟨false, []⟩ rfl)

/-- C9: when every existing subagent-model configuration file fails to parse,
`getModelConfiguration` warns and falls through, returning `none` — the same
no-configuration outcome as when no file exists at all — and it never throws
(it is a total function into `Option`). -/
theorem c9_malformed_config_is_absent (σ : Type) (parse : List Char → Option σ)
    (files : List (Option (List Char)))
    (h : ∀ c ∈ files, ∀ s, c = some s → parse s = none) :
    getModelConfiguration parse files = none
    ∧ (∀ n, getModelConfiguration parse (List.replicate n none) = none) := by
  constructor
  · induction files with
    | nil => rfl
    | cons c rest ih =>
      cases c with
      | none =>
        simpa [getModelConfiguration] using
          ih (fun c hc s hs => h c (List.mem_cons_of_mem _ hc) s hs)
      | some content =>
        have hp : parse content = none := h (some content) (List.mem_cons_self _ _) content rfl
        simp only [getModelConfiguration, hp]
        exact ih (fun c hc s hs => h c (List.mem_cons_of_mem _ hc) s hs)
  · intro n
    induction n with
    | zero => rfl
    | succ n ih => simpa [List.replicate_succ, getModelConfiguration] using ih

/-- Witness for C9: one existing but malformed configuration file. -/
theorem c9_witness :
    getModelConfiguration (fun _ => (none : Option Nat)) [some (strChars "notjson")] = none := by
  have H := c9_malformed_config_is_absent Nat (fun _ => none) [some (strChars "notjson")]
    (fun c hc s hs => rfl)
  exact H.1

/-- C10 counterexample: on `aaa` with search `aa` and replacement `b`, the
first occurrence at offset 0 is rewritten to `b` plus one pad space, but the
later occurrence at offset 1 (which overlaps the replaced span) is not left
unchanged: the bytes at offsets 1-2 of the output no longer spell `aa`. -/
theorem c10_counterexample :
    replaceOnceExact (strBytes "aaa") (strBytes "aa") (strBytes "b")
      = .ok (strBytes "b a")
    ∧ isPrefixList (strBytes "aa") ((strBytes "aaa").drop 1) = true
    ∧ isPrefixList (strBytes "aa") ((strBytes "b a").drop 1) = false
    ∧ (∃ e, replaceOnceExact (strBytes "c") (strBytes "d") (strBytes "ef")
        = .error e) := by
  refine ⟨by rfl, by decide, by decide, ⟨_, by rfl⟩⟩

/-- C10 amended: `replaceOnceExact` rewrites exactly the first
(lowest-offset) occurrence — no earlier position matches — producing
`take idx ++ replacement ++ padding ++ rest`, so all bytes before the match
and at or after the end of the matched span (in particular every later
non-overlapping occurrence) are unchanged; when the search bytes are absent
the buffer is returned unchanged, provided the replacement fits the search
span (a longer replacement throws even on non-matching input). -/
theorem c10_replaceOnceExact_first_occurrence (src search repl : List Nat) :
    (repl.length ≤ search.length → indexOfList search src = none →
        replaceOnceExact src search repl = .ok src)
    ∧ (∀ idx, indexOfList search src = some idx →
        (∀ j, j < idx → isPrefixList search (src.drop j) = false)
        ∧ isPrefixList search (src.drop idx) = true
        ∧ (repl.length ≤ search.length →
            replaceOnceExact src search repl = .ok (src.take idx ++ repl ++
              List.replicate (search.length - repl.length) 32 ++
              src.drop (idx + search.length)))) := by
  constructor
  · intro hfit hnone
    unfold replaceOnceExact
    rw [if_neg (by omega), hnone]
  · intro idx hidx
    refine ⟨indexOfList_min hidx, indexOfList_at hidx, ?_⟩
    intro hfit
    unfold replaceOnceExact
    rw [if_neg (by omega), hidx]

/-- Witness for C10: absence of the search byte leaves the buffer unchanged,
and a concrete first-occurrence rewrite. -/
theorem c10_witness :
    replaceOnceExact [1, 2] [9] [8] = .ok [1, 2]
    ∧ replaceOnceExact (strBytes "aaa") (strBytes "aa") (strBytes "b")
      = .ok ((strBytes "aaa").take 0 ++ strBytes "b" ++
          List.replicate 1 32 ++ (strBytes "aaa").drop 2) := by
  constructor
  · exact (c10_replaceOnceExact_first_occurrence [1, 2] [9] [8]).1
      (by decide) (by decide)
  · have H := ((c10_replaceOnceExact_first_occurrence (strBytes "aaa")
      (strBytes "aa") (strBytes "b")).2 0 (by decide)).2.2 (by decide)
    simpa using H

end ClaudePatches
